import Mathlib

/-
Verification of the HTML/text ingestion and normalization layer of the
soccer-api repository (src/routes/pokemon.js second document = the jokes
scraper, src/routes/jokes.js, src/routes/soccer-scores.js, src/unnamed/part_001).

Modelling conventions:
  * a JavaScript string is a list of Unicode scalar values (`List Char`);
    iteration `for (const ch of str)` is structural recursion over that list;
  * a byte sequence is a `List Nat` with entries below 256;
  * `null`/`undefined` results are `Option.none`; JavaScript truthiness of a
    string is emptiness of the corresponding list;
  * the platform pieces that the source calls but does not define
    (`TextDecoder("windows-1255")`, `encodeURIComponent`) are modelled from
    their published standard behaviour, as the spec describes them.
-/

set_option maxRecDepth 8192

-- ──────────────────────────────────────────────────────────────
--  Basic string utilities shared by the embeddings
-- ──────────────────────────────────────────────────────────────

/-- White-space predicate used for JavaScript's `trim` and the regex class
`\s` (space, tab, LF, CR, VT, FF, NBSP, BOM cover every character the
embedded call sites can meet). -/
def jsWs (c : Char) : Bool :=
  c == ' ' || c == '\t' || c == '\n' || c == '\r' ||
  c == Char.ofNat 0x0b || c == Char.ofNat 0x0c ||
  c == Char.ofNat 0xa0 || c == Char.ofNat 0xfeff

/-- JavaScript `String.prototype.trim`: drop leading and trailing white space. -/
def trim (s : List Char) : List Char :=
  ((s.reverse.dropWhile jsWs).reverse).dropWhile jsWs

/-- Match a literal at the head of a string; on success return the rest. -/
def stripLit : List Char → List Char → Option (List Char)
  | [], s => some s
  | _ :: _, [] => none
  | p :: ps, c :: cs => if c = p then stripLit ps cs else none

/-- JavaScript `String.prototype.includes` (substring containment). -/
def containsSub (pat : List Char) : List Char → Bool
  | [] => (stripLit pat []).isSome
  | c :: rest => (stripLit pat (c :: rest)).isSome || containsSub pat rest

/-- One upper-case hexadecimal digit. -/
def hexDigitUpper (n : Nat) : Char :=
  if n < 10 then Char.ofNat (48 + n) else Char.ofNat (55 + n)

/-- JavaScript `byte.toString(16).toUpperCase()`: minimal-length upper-case
hexadecimal representation. -/
def natToHexUpper (n : Nat) : List Char :=
  (Nat.toDigits 16 n).map Char.toUpper

/-- A fixed two-digit upper-case hexadecimal pair, the `XX` of a `%XX` escape. -/
def hexPair (b : Nat) : List Char :=
  [hexDigitUpper (b / 16 % 16), hexDigitUpper (b % 16)]

def isHexDigit (c : Char) : Bool :=
  (48 ≤ c.toNat && c.toNat ≤ 57) ||
  (65 ≤ c.toNat && c.toNat ≤ 70) ||
  (97 ≤ c.toNat && c.toNat ≤ 102)

def hexVal (c : Char) : Nat :=
  if 48 ≤ c.toNat ∧ c.toNat ≤ 57 then c.toNat - 48
  else if 65 ≤ c.toNat ∧ c.toNat ≤ 70 then c.toNat - 55
  else if 97 ≤ c.toNat ∧ c.toNat ≤ 102 then c.toNat - 87
  else 0

/-- UTF-8 encoding of one Unicode scalar value. -/
def utf8Bytes (cp : Nat) : List Nat :=
  if cp < 0x80 then [cp]
  else if cp < 0x800 then [0xc0 + cp / 64, 0x80 + cp % 64]
  else if cp < 0x10000 then [0xe0 + cp / 4096, 0x80 + cp / 64 % 64, 0x80 + cp % 64]
  else [0xf0 + cp / 262144, 0x80 + cp / 4096 % 64, 0x80 + cp / 64 % 64, 0x80 + cp % 64]

/-- The `uriUnescaped` set of ECMAScript `encodeURIComponent`:
alphanumerics and `- _ . ! ~ * ' ( )` pass through unescaped. -/
def uriUnescaped (c : Char) : Bool :=
  (48 ≤ c.toNat && c.toNat ≤ 57) ||
  (65 ≤ c.toNat && c.toNat ≤ 90) ||
  (97 ≤ c.toNat && c.toNat ≤ 122) ||
  ['-', '_', '.', '!', '~', '*', Char.ofNat 39, '(', ')'].contains c

/-- ECMAScript `encodeURIComponent` applied to a one-code-point string:
either the character itself, or every UTF-8 byte as a `%XX` escape. -/
def encodeURIComponentChar (c : Char) : List Char :=
  if uriUnescaped c then [c]
  else ((utf8Bytes c.toNat).map (fun b => '%' :: hexPair b)).join

-- ──────────────────────────────────────────────────────────────
--  encodeWin1255  (src/routes/pokemon.js, jokes document, lines 550-573)
-- ──────────────────────────────────────────────────────────────

/-- The body of `encodeWin1255`'s per-character loop: Hebrew letters
U+05D0..U+05EA become the `%XX` escape of byte `0xE0 + (cp - 0x05D0)`
(via `toString(16).toUpperCase()`); ASCII alphanumerics and `- _ . ~`
pass through; space becomes `%20`; anything else falls back to
`encodeURIComponent`. -/
def win1255EmitChar (ch : Char) : List Char :=
  let cp := ch.toNat
  if 0x5d0 ≤ cp ∧ cp ≤ 0x5ea then
    '%' :: natToHexUpper (0xe0 + (cp - 0x5d0))
  else if (0x30 ≤ cp ∧ cp ≤ 0x39) ∨ (0x41 ≤ cp ∧ cp ≤ 0x5a) ∨
          (0x61 ≤ cp ∧ cp ≤ 0x7a) ∨ ch ∈ "-_.~".data then
    [ch]
  else if ch = ' ' then "%20".data
  else encodeURIComponentChar ch

/-- `encodeWin1255` from the source: iterate the string by code point,
appending each character's emission to the accumulator `out`. -/
def encodeWin1255 (s : List Char) : List Char :=
  s.foldl (fun out ch => out ++ win1255EmitChar ch) []

/-- The per-code-point emission exactly as claim C2 words it: `%XX`
(two upper-case hex digits) for Hebrew letters; the character itself for
digits, ASCII letters and `- _ . ~`; `%20` for space; standard UTF-8
percent-encoding (ECMAScript `encodeURIComponent`) for everything else. -/
def encodeCharSpec (ch : Char) : List Char :=
  let cp := ch.toNat
  if 0x5d0 ≤ cp ∧ cp ≤ 0x5ea then
    '%' :: hexPair (0xe0 + (cp - 0x5d0))
  else if (0x30 ≤ cp ∧ cp ≤ 0x39) ∨ (0x41 ≤ cp ∧ cp ≤ 0x5a) ∨
          (0x61 ≤ cp ∧ cp ≤ 0x7a) ∨
          (ch = '-' ∨ ch = '_' ∨ ch = '.' ∨ ch = '~') then
    [ch]
  else if ch = ' ' then "%20".data
  else encodeURIComponentChar ch

-- ──────────────────────────────────────────────────────────────
--  Percent-decoding and the windows-1255 byte-to-text table
--  (the decode side of fetchPage: `new TextDecoder("windows-1255")`,
--   modelled from the WHATWG windows-1255 index, as the spec states it)
-- ──────────────────────────────────────────────────────────────

/-- Standard percent-decoding of a query-parameter string into bytes:
`%XX` with two hex digits yields the byte, any other character yields its
own code point (the encoder only ever produces ASCII here). -/
def pctDecode : List Char → List Nat
  | [] => []
  | c :: rest =>
    if c = '%' then
      match rest with
      | d1 :: d2 :: rest2 =>
        if isHexDigit d1 && isHexDigit d2 then
          (16 * hexVal d1 + hexVal d2) :: pctDecode rest2
        else c.toNat :: pctDecode (d1 :: d2 :: rest2)
      | [] => [c.toNat]
      | [d1] => c.toNat :: pctDecode [d1]
    else c.toNat :: pctDecode rest
termination_by s => s.length
decreasing_by all_goals simp_arith

/-- The upper half (bytes 0x80..0xFF) of the windows-1255 code page, per the
WHATWG encoding index; `none` marks byte values the code page leaves
unmapped. Entry `i` is byte `0x80 + i`. -/
def win1255High : List (Option Nat) :=
  [some 0x20ac, none, some 0x201a, some 0x0192,
   some 0x201e, some 0x2026, some 0x2020, some 0x2021,
   some 0x02c6, some 0x2030, none, some 0x2039,
   none, none, none, none,
   none, some 0x2018, some 0x2019, some 0x201c,
   some 0x201d, some 0x2022, some 0x2013, some 0x2014,
   some 0x02dc, some 0x2122, none, some 0x203a,
   none, none, none, none,
   some 0x00a0, some 0x00a1, some 0x00a2, some 0x00a3,
   some 0x20aa, some 0x00a5, some 0x00a6, some 0x00a7,
   some 0x00a8, some 0x00a9, some 0x00d7, some 0x00ab,
   some 0x00ac, some 0x00ad, some 0x00ae, some 0x00af,
   some 0x00b0, some 0x00b1, some 0x00b2, some 0x00b3,
   some 0x00b4, some 0x00b5, some 0x00b6, some 0x00b7,
   some 0x00b8, some 0x00b9, some 0x00f7, some 0x00bb,
   some 0x00bc, some 0x00bd, some 0x00be, some 0x00bf,
   some 0x05b0, some 0x05b1, some 0x05b2, some 0x05b3,
   some 0x05b4, some 0x05b5, some 0x05b6, some 0x05b7,
   some 0x05b8, some 0x05b9, some 0x05ba, some 0x05bb,
   some 0x05bc, some 0x05bd, some 0x05be, some 0x05bf,
   some 0x05c0, some 0x05c1, some 0x05c2, some 0x05c3,
   some 0x05f0, some 0x05f1, some 0x05f2, some 0x05f3,
   some 0x05f4, none, none, none,
   none, none, none, none,
   some 0x05d0, some 0x05d1, some 0x05d2, some 0x05d3,
   some 0x05d4, some 0x05d5, some 0x05d6, some 0x05d7,
   some 0x05d8, some 0x05d9, some 0x05da, some 0x05db,
   some 0x05dc, some 0x05dd, some 0x05de, some 0x05df,
   some 0x05e0, some 0x05e1, some 0x05e2, some 0x05e3,
   some 0x05e4, some 0x05e5, some 0x05e6, some 0x05e7,
   some 0x05e8, some 0x05e9, some 0x05ea, none,
   none, some 0x200e, some 0x200f, none]

/-- The windows-1255 code-page mapping as a partial function on byte values:
ASCII below 0x80 maps to itself, the upper half per `win1255High`,
`none` for unmapped bytes. -/
def win1255Table (b : Nat) : Option Nat :=
  if b < 0x80 then some b
  else if b < 0x100 then win1255High.getD (b - 0x80) none
  else none

/-- One byte of the non-fatal `TextDecoder("windows-1255")`: unmapped bytes
become the substitution character U+FFFD instead of an error. -/
def win1255Byte (b : Nat) : Nat :=
  (win1255Table b).getD 0xfffd

/-- The full byte-to-text decode step: total on every byte sequence. -/
def win1255Decode : List Nat → List Nat
  | [] => []
  | b :: bs => win1255Byte b :: win1255Decode bs

-- ──────────────────────────────────────────────────────────────
--  Time-bounded cache  (src/routes/jokes.js lines 54-67; the same shape
--  with a different TTL appears in the pokemon and soccer modules)
-- ──────────────────────────────────────────────────────────────

/-- A cache entry as stored by `setCache`: the payload plus the insertion
timestamp `ts = Date.now()` (milliseconds). -/
structure CacheEntry (α : Type) where
  data : α
  ts : Nat
deriving DecidableEq

/-- The jokes module's TTL: 30 minutes in milliseconds. -/
def CACHE_TTL : Nat := 1000 * 60 * 30

/-- `cached(key)`: return the entry's data when one exists and
`Date.now() - entry.ts < CACHE_TTL`, else `null`; expiry is checked lazily
on this read, nothing is swept. `now` is the clock passed explicitly. -/
def cached {α : Type} (now : Nat) (cache : List Char → Option (CacheEntry α))
    (key : List Char) : Option α :=
  match cache key with
  | some entry => if now - entry.ts < CACHE_TTL then some entry.data else none
  | none => none

/-- `setCache(key, data)`: overwrite the entry for `key` with the payload and
the current clock (the JS `Map.set`), returning the updated map. -/
def setCache {α : Type} (now : Nat) (cache : List Char → Option (CacheEntry α))
    (key : List Char) (data : α) : List Char → Option (CacheEntry α) :=
  fun k => if k = key then some ⟨data, now⟩ else cache k

-- ──────────────────────────────────────────────────────────────
--  parseListingPage  (src/routes/pokemon.js jokes document lines 694-711;
--  identical in src/routes/jokes.js lines 134-151)
--
--  A listing document is modelled by its anchors as selected by cheerio's
--  `$('a[href*="joke.php?id="]')` universe: every `<a>` element, with its
--  `href` attribute and its text content.
-- ──────────────────────────────────────────────────────────────

structure Anchor where
  href : List Char
  text : List Char
deriving DecidableEq

structure ListingEntry where
  id : Nat
  title : List Char
  url : List Char
deriving DecidableEq

/-- `Number` applied to the digit capture of the id regex. -/
def digitsToNat (ds : List Char) : Nat :=
  ds.foldl (fun n c => 10 * n + (c.toNat - 48)) 0

/-- Anchored attempt of the regex `/id=(\d+)/`: literal `id=` followed by a
maximal non-empty digit run. -/
def idMatchAt (s : List Char) : Option Nat :=
  (stripLit "id=".data s).bind fun s1 =>
    let ds := s1.takeWhile Char.isDigit
    if ds = [] then none else some (digitsToNat ds)

/-- `href.match(/id=(\d+)/)`: leftmost occurrence wins. -/
def idMatch : List Char → Option Nat
  | [] => none
  | c :: rest => idMatchAt (c :: rest) <|> idMatch rest

def jokePhpPat : List Char := "joke.php?id=".data

def jokeUrl (i : Nat) : List Char :=
  "https://www.yo-yoo.co.il/jokes/joke.php?id=".data ++ (Nat.repr i).data

/-- The body of the `.each` callback in `parseListingPage`: selector filter,
id regex, trimmed anchor text, truthiness check on the title and a
find-based duplicate check against the entries collected so far. -/
def listingStep (jokes : List ListingEntry) (a : Anchor) : List ListingEntry :=
  if containsSub jokePhpPat a.href then
    match idMatch a.href with
    | some i =>
      let title := trim a.text
      if title ≠ [] ∧ jokes.any (fun j => j.id == i) = false then
        jokes ++ [⟨i, title, jokeUrl i⟩]
      else jokes
    | none => jokes
  else jokes

/-- `parseListingPage` from the source: fold the callback over the anchors,
starting from the empty `jokes` array. -/
def parseListingPage (anchors : List Anchor) : List ListingEntry :=
  anchors.foldl listingStep []

/-- The entry an anchor would contribute: it must match the selector
pattern, carry a numeric id, and have non-empty trimmed text. -/
def anchorEntry (a : Anchor) : Option ListingEntry :=
  if containsSub jokePhpPat a.href then
    match idMatch a.href with
    | some i =>
      let title := trim a.text
      if title ≠ [] then some ⟨i, title, jokeUrl i⟩ else none
    | none => none
  else none

/-- First-occurrence deduplication by id, as an explicit accumulator loop. -/
def dedupGo (acc : List ListingEntry) : List ListingEntry → List ListingEntry
  | [] => acc
  | e :: rest =>
    if acc.any (fun j => j.id == e.id) = true then dedupGo acc rest
    else dedupGo (acc ++ [e]) rest

/-- First-occurrence deduplication on the id lists themselves. -/
def dedupNatGo (seen : List Nat) : List Nat → List Nat
  | [] => []
  | n :: rest =>
    if seen.any (fun m => m == n) = true then dedupNatGo seen rest
    else n :: dedupNatGo (seen ++ [n]) rest

def dedupNat (l : List Nat) : List Nat := dedupNatGo [] l

-- ──────────────────────────────────────────────────────────────
--  parseJokePage  (src/routes/pokemon.js jokes document lines 652-689)
--
--  A joke document is modelled by the cheerio projections the function
--  reads: `$("title").text()`, `$("body").html() || ""`, the
--  `meta[name="description"]` content attribute, `$("h2").first().text()`,
--  and (for the older jokes.js variant's fallback) the `$("p")` texts.
-- ──────────────────────────────────────────────────────────────

structure JokeDoc where
  titleText : List Char
  bodyHtml : List Char
  metaDescription : Option (List Char)
  h2First : List Char
  paragraphs : List (List Char)
deriving DecidableEq

structure JokeRecord where
  id : Nat
  title : Option (List Char)
  joke : Option (List Char)
  category : Option (List Char)
  url : List Char
deriving DecidableEq

def backquote : Char := Char.ofNat 96

/-- Remove `<...>` tag regions, as cheerio's `.text()` does on the markup
the site nests inside the share-popup argument. -/
def stripTagsAux : Bool → List Char → List Char
  | _, [] => []
  | true, c :: rest =>
    if c = '>' then stripTagsAux false rest else stripTagsAux true rest
  | false, c :: rest =>
    if c = '<' then stripTagsAux true rest else c :: stripTagsAux false rest

def stripTags (s : List Char) : List Char := stripTagsAux false s

/-- Decode the HTML entities cheerio resolves in text nodes (the named and
numeric entities that occur on the scraped pages). -/
def decodeEntities : List Char → List Char
  | [] => []
  | '&' :: 'q' :: 'u' :: 'o' :: 't' :: ';' :: rest => '"' :: decodeEntities rest
  | '&' :: 'a' :: 'm' :: 'p' :: ';' :: rest => '&' :: decodeEntities rest
  | '&' :: 'l' :: 't' :: ';' :: rest => '<' :: decodeEntities rest
  | '&' :: 'g' :: 't' :: ';' :: rest => '>' :: decodeEntities rest
  | '&' :: '#' :: '3' :: '9' :: ';' :: rest => Char.ofNat 39 :: decodeEntities rest
  | '&' :: 'n' :: 'b' :: 's' :: 'p' :: ';' :: rest => Char.ofNat 0xa0 :: decodeEntities rest
  | c :: rest => c :: decodeEntities rest

/-- `cheerio.load(fragment).text()`: strip nested markup, decode entities. -/
def cheerioText (s : List Char) : List Char := decodeEntities (stripTags s)

/-- `replace(/\s+/g, " ")`: collapse every white-space run to one space;
the boolean records whether the previous character was white space. -/
def collapseWsAux : Bool → List Char → List Char
  | _, [] => []
  | inWs, c :: rest =>
    if jsWs c then
      if inWs then collapseWsAux true rest else ' ' :: collapseWsAux true rest
    else c :: collapseWsAux false rest

def collapseWs (s : List Char) : List Char := collapseWsAux false s

/-- Anchored attempt of ``/openSharePopup\(`([^`]+)`/``: the literal call
prefix, a backquote, then a non-empty capture running to the next
backquote (which must exist). -/
def shareAt (s : List Char) : Option (List Char) :=
  match stripLit "openSharePopup(".data s with
  | some s1 =>
    match s1 with
    | c :: s2 =>
      if c = backquote then
        let cap := s2.takeWhile (fun x => x ≠ backquote)
        if cap ≠ [] ∧ cap.length < s2.length then some cap else none
      else none
    | [] => none
  | none => none

/-- `bodyHtml.match(/openSharePopup\(`([^`]+)`/)`: leftmost match wins. -/
def matchShare : List Char → Option (List Char)
  | [] => none
  | c :: rest => shareAt (c :: rest) <|> matchShare rest

/-- The regex `.`: any character except line terminators. -/
def isDotChar (c : Char) : Bool :=
  !(c == '\n' || c == '\r' || c == Char.ofNat 0x2028 || c == Char.ofNat 0x2029)

/-- Lazy `(.+?)` capture: extend one character at a time, returning the
shortest non-empty capture after which `tailOk` accepts the rest. -/
def lazyCapTo (tailOk : List Char → Bool) : List Char → List Char → Option (List Char)
  | _, [] => none
  | acc, c :: rest =>
    if isDotChar c then
      if tailOk rest then some (acc ++ [c])
      else lazyCapTo tailOk (acc ++ [c]) rest
    else none

/-- Greedy-with-backtracking `\s*`: try the attempt after dropping `j`
leading characters, longest drop first down to zero. -/
def tryWsFrom (f : List Char → Option (List Char)) (s : List Char) :
    Nat → Option (List Char)
  | 0 => f s
  | j + 1 => f (s.drop (j + 1)) <|> tryWsFrom f s j

/-- Greedy-with-backtracking `\s+`: like `tryWsFrom` but at least one
character must be dropped. -/
def tryWsPlus (f : List Char → Option (List Char)) (s : List Char) :
    Nat → Option (List Char)
  | 0 => none
  | 1 => f (s.drop 1)
  | j + 2 => f (s.drop (j + 2)) <|> tryWsPlus f s (j + 1)

/-- The tail `\s*-\s*יויו` of the title regex. -/
def titleTailOk (s : List Char) : Bool :=
  match stripLit "-".data (s.dropWhile jsWs) with
  | some s1 => (stripLit "יויו".data (s1.dropWhile jsWs)).isSome
  | none => false

/-- Anchored attempt of `/בדיחה\s*:\s*(.+?)\s*-\s*יויו/`. -/
def titleAt (s : List Char) : Option (List Char) :=
  match stripLit "בדיחה".data s with
  | some s1 =>
    match stripLit ":".data (s1.dropWhile jsWs) with
    | some s2 =>
      tryWsFrom (fun s3 => lazyCapTo titleTailOk [] s3) s2 ((s2.takeWhile jsWs).length)
    | none => none
  | none => none

/-- `pageTitle.match(/בדיחה\s*:\s*(.+?)\s*-\s*יויו/)`: leftmost match wins. -/
def matchTitleTag : List Char → Option (List Char)
  | [] => none
  | c :: rest => titleAt (c :: rest) <|> matchTitleTag rest

/-- Anchored attempt of `/בדיחות\s+(.+?):/`. -/
def catAt (s : List Char) : Option (List Char) :=
  match stripLit "בדיחות".data s with
  | some s1 =>
    tryWsPlus (fun s2 => lazyCapTo (fun r => (stripLit ":".data r).isSome) [] s2)
      s1 ((s1.takeWhile jsWs).length)
  | none => none

/-- `h2text.match(/בדיחות\s+(.+?):/)`: leftmost match wins. -/
def matchCat : List Char → Option (List Char)
  | [] => none
  | c :: rest => catAt (c :: rest) <|> matchCat rest

/-- `parseJokePage` from the source: title from the title-tag regex; joke
text primarily from the `openSharePopup` capture (markup stripped, entities
decoded, white space collapsed, trimmed), with the meta description (when
longer than 3 characters after trimming) as fallback when the primary text
is falsy (missing or empty); category from the first h2's regex. -/
def parseJokePage (doc : JokeDoc) (i : Nat) : JokeRecord :=
  let pageTitle := trim doc.titleText
  let title : Option (List Char) :=
    match matchTitleTag pageTitle with
    | some cap => some (trim cap)
    | none => none
  let jokeText : Option (List Char) :=
    match matchShare doc.bodyHtml with
    | some cap => some (trim (collapseWs (cheerioText cap)))
    | none => none
  let jokeText2 : Option (List Char) :=
    if jokeText = none ∨ jokeText = some [] then
      let metaDesc := trim (doc.metaDescription.getD [])
      if 3 < metaDesc.length then some metaDesc else jokeText
    else jokeText
  let h2text := trim doc.h2First
  let category : Option (List Char) :=
    match matchCat h2text with
    | some cap => some (trim cap)
    | none => none
  ⟨i, title, jokeText2, category, jokeUrl i⟩

/-- Step (1) of the extraction chain: the `openSharePopup` capture,
markup stripped, entities decoded, white space collapsed, trimmed. -/
def jokePrimary (doc : JokeDoc) : Option (List Char) :=
  match matchShare doc.bodyHtml with
  | some cap => some (trim (collapseWs (cheerioText cap)))
  | none => none

/-- Step (2) of the extraction chain: the trimmed meta-description content,
kept only when longer than 3 characters. -/
def jokeMetaFallback (doc : JokeDoc) : Option (List Char) :=
  let metaDesc := trim (doc.metaDescription.getD [])
  if 3 < metaDesc.length then some metaDesc else none

/-- JavaScript falsiness of a nullable string: `null` or `""`. -/
abbrev jsFalsyStr (o : Option (List Char)) : Prop := o = none ∨ o = some []

/-- The paragraph-collection fallback of the older jokes.js extractor
(src/routes/jokes.js lines 111-121): keep each trimmed paragraph longer
than 5 characters that contains neither the share prompt nor the site
name, join with newlines, `|| null`. -/
def paragraphFallback (ps : List (List Char)) : Option (List Char) :=
  let kept := ps.foldl
    (fun acc p =>
      let t := trim p
      if t ≠ [] ∧ 5 < t.length ∧
         containsSub "שתפו".data t = false ∧ containsSub "יויו".data t = false then
        acc ++ [t]
      else acc) []
  let joined := List.intercalate ['\n'] kept
  if joined = [] then none else some joined

/-- The three-step priority chain exactly as claim C6 words it: the script
capture, else the meta description, else the paragraph collection. -/
def jokeTextChainSpec (doc : JokeDoc) : Option (List Char) :=
  match jokePrimary doc with
  | some t => some t
  | none =>
    match jokeMetaFallback doc with
    | some t => some t
    | none => paragraphFallback doc.paragraphs

/-- A concrete document whose only content is one visible paragraph. -/
def paraOnlyDoc : JokeDoc :=
  ⟨[], [], none, [], ["Why did the chicken cross the road".data]⟩

/-- A concrete document carrying an `openSharePopup` invocation. -/
def shareDocW : JokeDoc :=
  ⟨[], "openSharePopup(".data ++ backquote :: 'h' :: 'a' :: backquote :: [')'],
   none, [], []⟩

-- ──────────────────────────────────────────────────────────────
--  Name normalizer  (src/unnamed/part_001: getName line 368,
--  getHebrewName lines 377-379, TYPE_HE lines 45-66 with the `he` helper
--  line 354, and the types route lookup lines 780-784)
-- ──────────────────────────────────────────────────────────────

/-- One element of a PokeAPI `names` array: the localized `name` and the
`language.name` code (absent when `language` is missing). -/
structure NameEntry where
  name : List Char
  langName : Option (List Char)
deriving DecidableEq

/-- `getName(names, langCode)`: first entry whose language code matches,
its `name` field, `|| null` (so an empty name falls through to null). -/
def getName (names : List NameEntry) (langCode : List Char) : Option (List Char) :=
  match names.find? (fun n => n.langName == some langCode) with
  | some n => if n.name = [] then none else some n.name
  | none => none

/-- Lookup in an object-literal table, first binding wins. -/
def lookupTab (tab : List (List Char × List Char)) (k : List Char) :
    Option (List Char) :=
  match tab.find? (fun p => p.1 == k) with
  | some p => some p.2
  | none => none

/-- `map[key] || null`: a missing or empty value becomes null. -/
def lookupTruthy (tab : List (List Char × List Char)) (k : List Char) :
    Option (List Char) :=
  match lookupTab tab k with
  | some v => if v = [] then none else some v
  | none => none

/-- The static built-in TYPE_HE table (src/unnamed/part_001 lines 45-66). -/
def TYPE_HE : List (List Char × List Char) :=
  [("normal".data, "נורמלי".data),
   ("fire".data, "אש".data),
   ("water".data, "מים".data),
   ("grass".data, "עשב".data),
   ("electric".data, "חשמל".data),
   ("ice".data, "קרח".data),
   ("fighting".data, "לוחם".data),
   ("poison".data, "רעל".data),
   ("ground".data, "אדמה".data),
   ("flying".data, "מעופף".data),
   ("psychic".data, "על-חושי".data),
   ("bug".data, "חרק".data),
   ("rock".data, "סלע".data),
   ("ghost".data, "רפאים".data),
   ("dragon".data, "דרקון".data),
   ("dark".data, "אופל".data),
   ("steel".data, "מתכת".data),
   ("fairy".data, "פיה".data),
   ("stellar".data, "כוכבי".data),
   ("unknown".data, "לא ידוע".data)]

/-- `he(map, key)`: `key ? map[key] || null : null`. -/
def he (tab : List (List Char × List Char)) (k : List Char) : Option (List Char) :=
  if k = [] then none else lookupTruthy tab k

/-- `getHebrewName(speciesNames, pokemonName)` from the source: the
PokeAPI species names are consulted FIRST, then the dynamically-loaded
dictionary `POKEMON_NAME_HE` (passed here as `dict`), then null. -/
def getHebrewName (dict : List (List Char × List Char))
    (speciesNames : List NameEntry) (pokemonName : List Char) :
    Option (List Char) :=
  match getName speciesNames "he".data with
  | some v => some v
  | none => lookupTruthy dict pokemonName

/-- The types route lookup (src/unnamed/part_001 line 783):
`getName(typeData.names, "he") || he(TYPE_HE, typeData.name)` — the
API-provided names first, then the static table. -/
def typeNameHebrew (names : List NameEntry) (typeName : List Char) :
    Option (List Char) :=
  match getName names "he".data with
  | some v => some v
  | none => he TYPE_HE typeName

/-- The lookup chain exactly as claim C8 words it: (a) the
dynamically-loaded dictionary, then (b) the static built-in table, then
(c) null. -/
def normalizerChainSpec (dict staticTab : List (List Char × List Char))
    (k : List Char) : Option (List Char) :=
  match lookupTab dict k with
  | some v => some v
  | none =>
    match lookupTab staticTab k with
    | some v => some v
    | none => none

/-- Concrete inputs for C8: species names carrying a Hebrew entry "X",
and a dynamic dictionary mapping "pikachu" to "Y". -/
def namesX : List NameEntry := [⟨"X".data, some "he".data⟩]

def dictY : List (List Char × List Char) := [("pikachu".data, "Y".data)]

-- ──────────────────────────────────────────────────────────────
--  Best-effort fan-out  (src/routes/soccer-scores.js lines 251-286 and the
--  jokes latest route, src/routes/pokemon.js jokes document lines 789-799)
--
--  As the claim directs, each fetch outcome is modelled as success (the
--  parsed per-item payload) or failure (an error message).
-- ──────────────────────────────────────────────────────────────

/-- A settled promise: fulfilled with a value or rejected with a reason. -/
inductive Settled (α : Type) where
  | fulfilled : α → Settled α
  | rejected : List Char → Settled α
deriving DecidableEq

/-- `fetchLeague`: the whole body is wrapped in try/catch, so a failed or
non-2xx fetch yields `[]` instead of a rejection. -/
def fetchLeagueResult {α : Type} (outcome : Except (List Char) (List α)) :
    List α :=
  match outcome with
  | Except.ok ms => ms
  | Except.error _ => []

/-- `Promise.allSettled` over the league tasks: every task settles, and
since `fetchLeague` never throws, each settles fulfilled with its
(possibly empty) match list. -/
def allSettledLeagues {α : Type} (outcomes : List (Except (List Char) (List α))) :
    List (Settled (List α)) :=
  outcomes.map (fun o => Settled.fulfilled (fetchLeagueResult o))

/-- `fetchToday`'s aggregation: keep the fulfilled results and flatten. -/
def fetchTodayMatches {α : Type} (outcomes : List (Except (List Char) (List α))) :
    List α :=
  ((allSettledLeagues outcomes).filterMap
    (fun s => match s with
      | Settled.fulfilled v => some v
      | Settled.rejected _ => none)).join

/-- The jokes latest/category fan-out recovery: `{ ...link, joke: null }` —
the listing entry's fields with an absent joke (and no category field). -/
def nullJokeOf (l : ListingEntry) : JokeRecord :=
  ⟨l.id, some l.title, none, none, l.url⟩

/-- The per-link fan-out of the jokes latest route: each link's page fetch
is awaited inside its own try/catch, a failure contributing the per-item
null-joke record in place. -/
def jokesLatestBatch (links : List ListingEntry)
    (fetch : ListingEntry → Except (List Char) JokeRecord) : List JokeRecord :=
  links.map (fun l =>
    match fetch l with
    | Except.ok j => j
    | Except.error _ => nullJokeOf l)

-- ══════════════════════════════════════════════════════════════
--  Helper lemmas (encoder / decoder)
-- ══════════════════════════════════════════════════════════════

theorem encodeWin1255_eq_join (s : List Char) :
    encodeWin1255 s = (s.map win1255EmitChar).join := by
  have h : ∀ (t : List Char) (acc : List Char),
      t.foldl (fun out ch => out ++ win1255EmitChar ch) acc
        = acc ++ (t.map win1255EmitChar).join := by
    intro t
    induction t with
    | nil => intro acc; simp
    | cons c t ih => intro acc; simp [ih, List.append_assoc]
  simpa using h s []

theorem encodeWin1255_cons (c : Char) (t : List Char) :
    encodeWin1255 (c :: t) = win1255EmitChar c ++ encodeWin1255 t := by
  rw [encodeWin1255_eq_join, encodeWin1255_eq_join]
  simp

theorem natToHexUpper_eq_hexPair :
    ∀ b, b < 256 → 224 ≤ b → natToHexUpper b = hexPair b := by decide

theorem isHexDigit_hexDigitUpper : ∀ n, n < 16 → isHexDigit (hexDigitUpper n) = true := by
  decide

theorem hexVal_hexDigitUpper : ∀ n, n < 16 → hexVal (hexDigitUpper n) = n := by
  decide

theorem pctDecode_plain (c : Char) (hc : ¬ c = '%') (rest : List Char) :
    pctDecode (c :: rest) = c.toNat :: pctDecode rest := by
  rw [pctDecode.eq_def]
  simp [hc]

theorem pctDecode_escape (d1 d2 : Char) (h1 : isHexDigit d1 = true)
    (h2 : isHexDigit d2 = true) (rest : List Char) :
    pctDecode ('%' :: d1 :: d2 :: rest)
      = (16 * hexVal d1 + hexVal d2) :: pctDecode rest := by
  simp [pctDecode, h1, h2]

theorem pct_emit_hebrew (c : Char) (hc : 0x5d0 ≤ c.toNat ∧ c.toNat ≤ 0x5ea)
    (r : List Char) :
    pctDecode (win1255EmitChar c ++ r)
      = (0xe0 + (c.toNat - 0x5d0)) :: pctDecode r := by
  have hb1 : 0xe0 + (c.toNat - 0x5d0) < 256 := by omega
  have hb2 : 224 ≤ 0xe0 + (c.toNat - 0x5d0) := by omega
  have hm1 : (0xe0 + (c.toNat - 0x5d0)) / 16 % 16 < 16 := by omega
  have hm2 : (0xe0 + (c.toNat - 0x5d0)) % 16 < 16 := by omega
  simp only [win1255EmitChar, if_pos hc]
  rw [natToHexUpper_eq_hexPair _ hb1 hb2]
  simp only [hexPair, List.cons_append, List.nil_append]
  rw [pctDecode_escape _ _
    (isHexDigit_hexDigitUpper _ hm1)
    (isHexDigit_hexDigitUpper _ hm2)]
  rw [hexVal_hexDigitUpper _ hm1, hexVal_hexDigitUpper _ hm2]
  have hv : 16 * ((0xe0 + (c.toNat - 0x5d0)) / 16 % 16) + (0xe0 + (c.toNat - 0x5d0)) % 16
      = 0xe0 + (c.toNat - 0x5d0) := by omega
  rw [hv]

theorem pct_emit_keep (c : Char)
    (hc : (0x30 ≤ c.toNat ∧ c.toNat ≤ 0x39) ∨ (0x41 ≤ c.toNat ∧ c.toNat ≤ 0x5a) ∨
          (0x61 ≤ c.toNat ∧ c.toNat ≤ 0x7a))
    (r : List Char) :
    pctDecode (win1255EmitChar c ++ r) = c.toNat :: pctDecode r := by
  have h1 : ¬ (0x5d0 ≤ c.toNat ∧ c.toNat ≤ 0x5ea) := by omega
  have h2 : (0x30 ≤ c.toNat ∧ c.toNat ≤ 0x39) ∨ (0x41 ≤ c.toNat ∧ c.toNat ≤ 0x5a) ∨
            (0x61 ≤ c.toNat ∧ c.toNat ≤ 0x7a) ∨ c ∈ "-_.~".data := by tauto
  have hpc : ¬ c = '%' := by
    intro hh
    have h37 : c.toNat = 37 := by rw [hh]; rfl
    omega
  simp only [win1255EmitChar, if_neg h1, if_pos h2, List.singleton_append]
  exact pctDecode_plain c hpc r

theorem win1255Byte_hebrew :
    ∀ b, b < 251 → 224 ≤ b → win1255Byte b = 0x5d0 + (b - 0xe0) := by decide

theorem win1255Byte_ascii : ∀ b, b < 128 → win1255Byte b = b := by decide

theorem win1255Decode_eq_map (bs : List Nat) :
    win1255Decode bs = bs.map win1255Byte := by
  induction bs with
  | nil => rfl
  | cons b bs ih => simp [win1255Decode, ih]

theorem win1255Emit_eq_spec (ch : Char) : win1255EmitChar ch = encodeCharSpec ch := by
  have hmem : (ch ∈ "-_.~".data) ↔ (ch = '-' ∨ ch = '_' ∨ ch = '.' ∨ ch = '~') := by
    have hd : "-_.~".data = ['-', '_', '.', '~'] := rfl
    rw [hd]
    simp
  by_cases h1 : 0x5d0 ≤ ch.toNat ∧ ch.toNat ≤ 0x5ea
  · have hb1 : 0xe0 + (ch.toNat - 0x5d0) < 256 := by omega
    have hb2 : 224 ≤ 0xe0 + (ch.toNat - 0x5d0) := by omega
    simp only [win1255EmitChar, encodeCharSpec, if_pos h1]
    rw [natToHexUpper_eq_hexPair _ hb1 hb2]
  · by_cases h2 : (0x30 ≤ ch.toNat ∧ ch.toNat ≤ 0x39) ∨ (0x41 ≤ ch.toNat ∧ ch.toNat ≤ 0x5a) ∨
        (0x61 ≤ ch.toNat ∧ ch.toNat ≤ 0x7a) ∨ ch ∈ "-_.~".data
    · have h2' : (0x30 ≤ ch.toNat ∧ ch.toNat ≤ 0x39) ∨ (0x41 ≤ ch.toNat ∧ ch.toNat ≤ 0x5a) ∨
          (0x61 ≤ ch.toNat ∧ ch.toNat ≤ 0x7a) ∨
          (ch = '-' ∨ ch = '_' ∨ ch = '.' ∨ ch = '~') := by
        rcases h2 with h | h | h | h
        · exact Or.inl h
        · exact Or.inr (Or.inl h)
        · exact Or.inr (Or.inr (Or.inl h))
        · exact Or.inr (Or.inr (Or.inr (hmem.mp h)))
      simp only [win1255EmitChar, encodeCharSpec, if_neg h1, if_pos h2, if_pos h2']
    · have h2' : ¬ ((0x30 ≤ ch.toNat ∧ ch.toNat ≤ 0x39) ∨ (0x41 ≤ ch.toNat ∧ ch.toNat ≤ 0x5a) ∨
          (0x61 ≤ ch.toNat ∧ ch.toNat ≤ 0x7a) ∨
          (ch = '-' ∨ ch = '_' ∨ ch = '.' ∨ ch = '~')) := by
        intro hcon
        apply h2
        rcases hcon with h | h | h | h
        · exact Or.inl h
        · exact Or.inr (Or.inl h)
        · exact Or.inr (Or.inr (Or.inl h))
        · exact Or.inr (Or.inr (Or.inr (hmem.mpr h)))
      simp only [win1255EmitChar, encodeCharSpec, if_neg h1, if_neg h2, if_neg h2']

-- ══════════════════════════════════════════════════════════════
--  C1, C2, C3
-- ══════════════════════════════════════════════════════════════

/-- C1: for every string made only of Hebrew letters U+05D0..U+05EA, ASCII
digits and ASCII letters, percent-decoding the output of `encodeWin1255`
to bytes and mapping those bytes through the windows-1255 byte-to-text
table reproduces the original code-point sequence exactly. -/
theorem encodeWin1255_decode_roundtrip (s : List Char)
    (h : ∀ c ∈ s, (0x5d0 ≤ c.toNat ∧ c.toNat ≤ 0x5ea) ∨
         (0x30 ≤ c.toNat ∧ c.toNat ≤ 0x39) ∨ (0x41 ≤ c.toNat ∧ c.toNat ≤ 0x5a) ∨
         (0x61 ≤ c.toNat ∧ c.toNat ≤ 0x7a)) :
    win1255Decode (pctDecode (encodeWin1255 s)) = s.map Char.toNat := by
  induction s with
  | nil => simp [encodeWin1255, pctDecode, win1255Decode]
  | cons c t ih =>
    have hc := h c (List.mem_cons_self c t)
    have ht : ∀ x ∈ t, (0x5d0 ≤ x.toNat ∧ x.toNat ≤ 0x5ea) ∨
        (0x30 ≤ x.toNat ∧ x.toNat ≤ 0x39) ∨ (0x41 ≤ x.toNat ∧ x.toNat ≤ 0x5a) ∨
        (0x61 ≤ x.toNat ∧ x.toNat ≤ 0x7a) :=
      fun x hx => h x (List.mem_cons_of_mem c hx)
    rw [encodeWin1255_cons]
    rcases hc with hheb | hrest
    · rw [pct_emit_hebrew c hheb]
      show win1255Byte _ :: win1255Decode _ = _
      rw [ih ht]
      have hv := win1255Byte_hebrew (0xe0 + (c.toNat - 0x5d0)) (by omega) (by omega)
      have hv2 : 0x5d0 + (0xe0 + (c.toNat - 0x5d0) - 0xe0) = c.toNat := by omega
      rw [hv, hv2]
      simp
    · rw [pct_emit_keep c hrest]
      show win1255Byte _ :: win1255Decode _ = _
      rw [ih ht, win1255Byte_ascii _ (by omega)]
      simp

/-- Witness for C1 at the concrete input "אב3x". -/
theorem encodeWin1255_decode_roundtrip_witness :
    (∀ c ∈ ['א', 'ב', '3', 'x'],
        (0x5d0 ≤ c.toNat ∧ c.toNat ≤ 0x5ea) ∨
        (0x30 ≤ c.toNat ∧ c.toNat ≤ 0x39) ∨ (0x41 ≤ c.toNat ∧ c.toNat ≤ 0x5a) ∨
        (0x61 ≤ c.toNat ∧ c.toNat ≤ 0x7a)) ∧
    win1255Decode (pctDecode (encodeWin1255 ['א', 'ב', '3', 'x']))
      = ['א', 'ב', '3', 'x'].map Char.toNat :=
  ⟨by decide, encodeWin1255_decode_roundtrip _ (by decide)⟩

/-- C2: the legacy encoder processes the input one code point at a time and
its output is the concatenation, in input order, of the per-code-point
emissions described by the claim (`encodeCharSpec`). -/
theorem encodeWin1255_per_codepoint (s : List Char) :
    encodeWin1255 s = (s.map encodeCharSpec).join := by
  rw [encodeWin1255_eq_join]
  have h : win1255EmitChar = encodeCharSpec := funext win1255Emit_eq_spec
  rw [h]

/-- C3: the byte-to-text decode step is total: on every byte sequence it
returns one code point per byte (never an error), code-page-unmapped bytes
come out as the substitution character U+FFFD, and in particular the bytes
0xD9..0xDF, 0xFB, 0xFC and 0xFF are unmapped in windows-1255. -/
theorem win1255Decode_total (bs : List Nat) :
    (win1255Decode bs).length = bs.length ∧
    win1255Decode bs = bs.map win1255Byte ∧
    (∀ b ∈ bs, win1255Table b = none → win1255Byte b = 0xfffd) ∧
    (∀ b, ((0xd9 ≤ b ∧ b ≤ 0xdf) ∨ b = 0xfb ∨ b = 0xfc ∨ b = 0xff) →
      win1255Table b = none) := by
  refine ⟨?_, win1255Decode_eq_map bs, ?_, ?_⟩
  · rw [win1255Decode_eq_map]; simp
  · intro b _ hb
    rw [win1255Byte, hb]
    rfl
  · intro b hb
    have hcases : (0xd9 ≤ b ∧ b ≤ 0xdf) ∨ b = 0xfb ∨ b = 0xfc ∨ b = 0xff := hb
    rcases hcases with ⟨hlo, hhi⟩ | rfl | rfl | rfl
    · interval_cases b <;> rfl
    · rfl
    · rfl
    · rfl

/-- Witness for C3 at the concrete byte sequence [0x41, 0xDB, 0xE0]. -/
theorem win1255Decode_total_witness :
    (win1255Decode [0x41, 0xdb, 0xe0]).length = 3 ∧
    win1255Table 0xdb = none ∧
    win1255Byte 0xdb = 0xfffd ∧
    win1255Decode [0x41, 0xdb, 0xe0] = [0x41, 0xfffd, 0x5d0] :=
  ⟨(win1255Decode_total [0x41, 0xdb, 0xe0]).1, by decide,
   (win1255Decode_total [0x41, 0xdb, 0xe0]).2.2.1 0xdb (by decide) (by decide),
   by decide⟩

-- ══════════════════════════════════════════════════════════════
--  C4
-- ══════════════════════════════════════════════════════════════

/-- C4: a `cached` read of key `k` at clock `t'`, at or after a
`setCache t k v` with no intervening set for `k`, returns `v` while
`t' - t < CACHE_TTL` (including the same instant), and returns absent as
soon as the TTL has fully elapsed (`CACHE_TTL ≤ t' - t`); the entry is
merely treated as missing, checked lazily on the read. -/
theorem cached_after_setCache {α : Type} (cache : List Char → Option (CacheEntry α))
    (k : List Char) (v : α) (t t' : Nat) (_hle : t ≤ t') :
    (t' - t < CACHE_TTL → cached t' (setCache t cache k v) k = some v) ∧
    (CACHE_TTL ≤ t' - t → cached t' (setCache t cache k v) k = none) := by
  constructor
  · intro hlt
    simp [cached, setCache, hlt]
  · intro hge
    have hnot : ¬ t' - t < CACHE_TTL := by omega
    simp [cached, setCache, hnot]

/-- Witness for C4: a fresh read returns the value, a read 30 minutes or
later returns absent. -/
theorem cached_after_setCache_witness :
    (cached 5 (setCache 0 (fun _ => (none : Option (CacheEntry Nat))) ['k'] 7) ['k'] = some 7) ∧
    (cached 1800000 (setCache 0 (fun _ => (none : Option (CacheEntry Nat))) ['k'] 7) ['k'] = none) :=
  ⟨(cached_after_setCache (fun _ => none) ['k'] 7 0 5 (by decide)).1 (by decide),
   (cached_after_setCache (fun _ => none) ['k'] 7 0 1800000 (by decide)).2 (by decide)⟩

-- ══════════════════════════════════════════════════════════════
--  Helper lemmas (listing extractor)
-- ══════════════════════════════════════════════════════════════

theorem listingStep_eq (acc : List ListingEntry) (a : Anchor) :
    listingStep acc a =
      match anchorEntry a with
      | none => acc
      | some e =>
        if acc.any (fun j => j.id == e.id) = true then acc else acc ++ [e] := by
  unfold listingStep anchorEntry
  by_cases h1 : containsSub jokePhpPat a.href = true
  · simp only [if_pos h1]
    cases h2 : idMatch a.href with
    | none => rfl
    | some i =>
      by_cases h3 : trim a.text = []
      · simp [h3]
      · by_cases h4 : acc.any (fun j => j.id == i) = true
        · simp [h3, h4]
        · simp [h3, h4]
  · simp [h1]

theorem foldl_listingStep_eq_dedupGo (anchors : List Anchor) :
    ∀ acc, anchors.foldl listingStep acc = dedupGo acc (anchors.filterMap anchorEntry) := by
  induction anchors with
  | nil => intro acc; rfl
  | cons a rest ih =>
    intro acc
    rw [List.foldl_cons, List.filterMap_cons, listingStep_eq]
    cases h : anchorEntry a with
    | none => exact ih acc
    | some e =>
      show List.foldl listingStep
          (if acc.any (fun j => j.id == e.id) = true then acc else acc ++ [e]) rest
        = dedupGo acc (e :: rest.filterMap anchorEntry)
      by_cases h4 : acc.any (fun j => j.id == e.id) = true
      · rw [if_pos h4]
        simp only [dedupGo]
        rw [if_pos h4]
        exact ih acc
      · rw [if_neg h4]
        simp only [dedupGo]
        rw [if_neg h4]
        exact ih (acc ++ [e])

theorem parseListingPage_eq_dedup (anchors : List Anchor) :
    parseListingPage anchors = dedupGo [] (anchors.filterMap anchorEntry) :=
  foldl_listingStep_eq_dedupGo anchors []

theorem dedupGo_map_id (l : List ListingEntry) :
    ∀ acc, (dedupGo acc l).map (fun e => e.id)
      = acc.map (fun e => e.id)
        ++ dedupNatGo (acc.map (fun e => e.id)) (l.map (fun e => e.id)) := by
  induction l with
  | nil => intro acc; simp [dedupGo, dedupNatGo]
  | cons e rest ih =>
    intro acc
    have hany : (acc.map (fun x => x.id)).any (fun m => m == e.id)
        = acc.any (fun j => j.id == e.id) := by
      induction acc with
      | nil => rfl
      | cons y ys ihy => simp [ihy]
    by_cases h4 : acc.any (fun j => j.id == e.id) = true
    · have e1 : dedupGo acc (e :: rest) = dedupGo acc rest := by
        simp only [dedupGo]; rw [if_pos h4]
      have e2 : dedupNatGo (acc.map (fun x => x.id))
            (e.id :: rest.map (fun x => x.id))
          = dedupNatGo (acc.map (fun x => x.id)) (rest.map (fun x => x.id)) := by
        simp only [dedupNatGo]; rw [hany, if_pos h4]
      rw [List.map_cons, e1, e2, ih acc]
    · have e1 : dedupGo acc (e :: rest) = dedupGo (acc ++ [e]) rest := by
        simp only [dedupGo]; rw [if_neg h4]
      have e2 : dedupNatGo (acc.map (fun x => x.id))
            (e.id :: rest.map (fun x => x.id))
          = e.id :: dedupNatGo (acc.map (fun x => x.id) ++ [e.id])
              (rest.map (fun x => x.id)) := by
        simp only [dedupNatGo]; rw [hany, if_neg h4]
      rw [List.map_cons, e1, e2, ih (acc ++ [e])]
      simp [List.map_append]

theorem dedupGo_mem (l : List ListingEntry) :
    ∀ (acc : List ListingEntry) (e : ListingEntry),
    e ∈ dedupGo acc l →
    e ∈ acc ∨ (acc.any (fun j => j.id == e.id) = false ∧
               l.find? (fun x => x.id == e.id) = some e) := by
  induction l with
  | nil =>
    intro acc e h
    simp only [dedupGo] at h
    exact Or.inl h
  | cons x rest ih =>
    intro acc e h
    by_cases h4 : acc.any (fun j => j.id == x.id) = true
    · have h' : e ∈ dedupGo acc rest := by
        simp only [dedupGo] at h; rwa [if_pos h4] at h
      rcases ih acc e h' with hin | ⟨hfalse, hfind⟩
      · exact Or.inl hin
      · refine Or.inr ⟨hfalse, ?_⟩
        have hxid : (x.id == e.id) = false := by
          by_contra hcon
          have htrue : (x.id == e.id) = true := by
            cases hb : (x.id == e.id)
            · exact absurd hb hcon
            · rfl
          have hxe : x.id = e.id := eq_of_beq htrue
          rw [hxe] at h4
          rw [h4] at hfalse
          exact absurd hfalse (by simp)
        rw [List.find?_cons_of_neg _ (by simp [hxid])]
        exact hfind
    · have h' : e ∈ dedupGo (acc ++ [x]) rest := by
        simp only [dedupGo] at h; rwa [if_neg h4] at h
      rcases ih (acc ++ [x]) e h' with hin | ⟨hfalse, hfind⟩
      · rcases List.mem_append.mp hin with hina | hinx
        · exact Or.inl hina
        · have hex : e = x := by simpa using hinx
          subst hex
          rw [Bool.not_eq_true] at h4
          refine Or.inr ⟨h4, ?_⟩
          rw [List.find?_cons_of_pos _ (by simp)]
      · rw [List.any_append] at hfalse
        simp only [Bool.or_eq_false_iff] at hfalse
        obtain ⟨hacc, hx⟩ := hfalse
        have hxe : (x.id == e.id) = false := by simpa using hx
        refine Or.inr ⟨hacc, ?_⟩
        rw [List.find?_cons_of_neg _ (by simp [hxe])]
        exact hfind

theorem anchorEntry_title_ne (a : Anchor) (e : ListingEntry)
    (h : anchorEntry a = some e) : e.title ≠ [] := by
  unfold anchorEntry at h
  by_cases h1 : containsSub jokePhpPat a.href = true
  · rw [if_pos h1] at h
    cases h2 : idMatch a.href with
    | none => rw [h2] at h; exact absurd h (by simp)
    | some i =>
      rw [h2] at h
      by_cases h3 : trim a.text = []
      · simp [h3] at h
      · simp only [h3, ne_eq, not_false_eq_true, if_true] at h
        obtain rfl := Option.some.inj h
        exact h3
  · rw [if_neg h1] at h; exact absurd h (by simp)

theorem filterMap_filter_isSome (l : List Anchor) :
    (l.filter (fun a => (anchorEntry a).isSome)).filterMap anchorEntry
      = l.filterMap anchorEntry := by
  induction l with
  | nil => rfl
  | cons a rest ih =>
    cases h : anchorEntry a with
    | none => simp [List.filter_cons, List.filterMap_cons, h, ih]
    | some e => simp [List.filter_cons, List.filterMap_cons, h, ih]

-- ══════════════════════════════════════════════════════════════
--  C5, C10
-- ══════════════════════════════════════════════════════════════

/-- C5 counterexample: an anchor whose href matches the joke-URL pattern and
carries the numeric identifier 5, but whose text is empty, produces no entry
at all — not "one entry per distinct identifier" as the claim states. -/
theorem parseListingPage_empty_title_counterexample :
    containsSub jokePhpPat "joke.php?id=5".data = true ∧
    idMatch "joke.php?id=5".data = some 5 ∧
    parseListingPage [⟨"joke.php?id=5".data, []⟩] = [] := by
  refine ⟨by decide, by decide, by decide⟩

/-- C5 (amended): among the anchors that match the pattern, carry a numeric
identifier and have non-empty trimmed text, the extractor returns one entry
per distinct identifier, in first-seen order; in particular the claim's
example — two anchors for id 12 with one for id 7 between them — yields
exactly the two entries, id 12 before id 7. -/
theorem parseListingPage_dedup_first_seen :
    (∀ d, (parseListingPage d).map (fun e => e.id)
        = dedupNat ((d.filterMap anchorEntry).map (fun e => e.id))) ∧
    parseListingPage
        [⟨"joke.php?id=12".data, "a".data⟩,
         ⟨"joke.php?id=7".data, "b".data⟩,
         ⟨"joke.php?id=12".data, "c".data⟩]
      = [⟨12, "a".data, jokeUrl 12⟩, ⟨7, "b".data, jokeUrl 7⟩] := by
  constructor
  · intro d
    rw [parseListingPage_eq_dedup]
    have h := dedupGo_map_id (d.filterMap anchorEntry) []
    simpa [dedupNat] using h
  · decide

/-- C10: every returned entry has non-empty title; the entry kept for an
identifier is the first pattern-matching anchor with that identifier whose
trimmed text is non-empty; anchors contributing no entry (in particular
those with a valid id but empty text) can be dropped without changing the
result; and concretely, for two anchors with id 12 whose first has
whitespace-only text, the kept entry is the second anchor's. -/
theorem parseListingPage_keeps_first_nonempty :
    (∀ d e, e ∈ parseListingPage d →
        e.title ≠ [] ∧
        (d.filterMap anchorEntry).find? (fun x => x.id == e.id) = some e) ∧
    (∀ d, parseListingPage d
        = parseListingPage (d.filter (fun a => (anchorEntry a).isSome))) ∧
    parseListingPage
        [⟨"joke.php?id=12".data, "   ".data⟩, ⟨"joke.php?id=12".data, "x".data⟩]
      = [⟨12, "x".data, jokeUrl 12⟩] := by
  refine ⟨?_, ?_, by decide⟩
  · intro d e hmem
    rw [parseListingPage_eq_dedup] at hmem
    rcases dedupGo_mem (d.filterMap anchorEntry) [] e hmem with hin | ⟨_, hfind⟩
    · exact absurd hin (List.not_mem_nil e)
    · have hmem2 : e ∈ d.filterMap anchorEntry := List.mem_of_find?_eq_some hfind
      obtain ⟨a, _, ha⟩ := List.mem_filterMap.mp hmem2
      exact ⟨anchorEntry_title_ne a e ha, hfind⟩
  · intro d
    rw [parseListingPage_eq_dedup, parseListingPage_eq_dedup, filterMap_filter_isSome]

/-- Witness for C10 at a concrete listing with a single non-empty anchor. -/
theorem parseListingPage_keeps_first_nonempty_witness :
    ((⟨12, "x".data, jokeUrl 12⟩ : ListingEntry)
        ∈ parseListingPage [⟨"joke.php?id=12".data, "x".data⟩]) ∧
    (⟨12, "x".data, jokeUrl 12⟩ : ListingEntry).title ≠ [] ∧
    ([⟨"joke.php?id=12".data, "x".data⟩].filterMap anchorEntry).find?
        (fun x => x.id == (12 : Nat)) = some ⟨12, "x".data, jokeUrl 12⟩ :=
  ⟨by decide,
   (parseListingPage_keeps_first_nonempty.1 [⟨"joke.php?id=12".data, "x".data⟩]
      ⟨12, "x".data, jokeUrl 12⟩ (by decide)).1,
   (parseListingPage_keeps_first_nonempty.1 [⟨"joke.php?id=12".data, "x".data⟩]
      ⟨12, "x".data, jokeUrl 12⟩ (by decide)).2⟩

-- ══════════════════════════════════════════════════════════════
--  C6, C7
-- ══════════════════════════════════════════════════════════════

/-- C6 counterexample: on a document with no `openSharePopup` invocation and
no meta description but one visible paragraph of ordinary text, the claimed
three-step chain produces the paragraph text, yet the extractor's joke
field is absent — the extractor has no paragraph fallback. -/
theorem parseJokePage_no_paragraph_fallback :
    (parseJokePage paraOnlyDoc 7).joke = none ∧
    jokeTextChainSpec paraOnlyDoc
      = some "Why did the chicken cross the road".data ∧
    (parseJokePage paraOnlyDoc 7).joke ≠ jokeTextChainSpec paraOnlyDoc := by
  refine ⟨by decide, by decide, by decide⟩

/-- C6 (amended): the joke-text field is produced by a two-step chain: (1)
the `openSharePopup` capture and (2) the meta description (kept when longer
than 3 characters), the meta step running only when the primary step
produced nothing (no match or empty text); if both steps miss, the field
keeps the primary's null/empty result — there is no paragraph fallback in
this extractor. -/
theorem parseJokePage_joke_two_step (doc : JokeDoc) (i : Nat) :
    (¬ jsFalsyStr (jokePrimary doc) →
        (parseJokePage doc i).joke = jokePrimary doc) ∧
    (jsFalsyStr (jokePrimary doc) → jokeMetaFallback doc ≠ none →
        (parseJokePage doc i).joke = jokeMetaFallback doc) ∧
    (jsFalsyStr (jokePrimary doc) → jokeMetaFallback doc = none →
        (parseJokePage doc i).joke = jokePrimary doc) := by
  have hjoke : (parseJokePage doc i).joke =
      (if jokePrimary doc = none ∨ jokePrimary doc = some [] then
        (if 3 < (trim (doc.metaDescription.getD [])).length then
          some (trim (doc.metaDescription.getD []))
         else jokePrimary doc)
       else jokePrimary doc) := rfl
  refine ⟨?_, ?_, ?_⟩
  · intro h
    rw [jsFalsyStr] at h
    rw [hjoke, if_neg h]
  · intro h hm
    rw [jsFalsyStr] at h
    rw [hjoke, if_pos h]
    by_cases hlen : 3 < (trim (doc.metaDescription.getD [])).length
    · rw [if_pos hlen]
      rw [jokeMetaFallback]
      rw [if_pos hlen]
    · exact absurd (by rw [jokeMetaFallback]; rw [if_neg hlen]) hm
  · intro h hm
    rw [jsFalsyStr] at h
    rw [hjoke, if_pos h]
    have hlen : ¬ 3 < (trim (doc.metaDescription.getD [])).length := by
      intro hcon
      rw [jokeMetaFallback] at hm
      rw [if_pos hcon] at hm
      exact absurd hm (by simp)
    rw [if_neg hlen]

/-- Witness for C6 (amended) at a document with a share invocation and at
a document with neither step available. -/
theorem parseJokePage_joke_two_step_witness :
    (¬ jsFalsyStr (jokePrimary shareDocW) ∧
      (parseJokePage shareDocW 1).joke = jokePrimary shareDocW) ∧
    (jsFalsyStr (jokePrimary paraOnlyDoc) ∧ jokeMetaFallback paraOnlyDoc = none ∧
      (parseJokePage paraOnlyDoc 7).joke = jokePrimary paraOnlyDoc) :=
  ⟨⟨by decide, (parseJokePage_joke_two_step shareDocW 1).1 (by decide)⟩,
   ⟨by decide, by decide,
    (parseJokePage_joke_two_step paraOnlyDoc 7).2.2 (by decide) (by decide)⟩⟩

/-- C7: on a document with none of the expected markers — no title-pattern
match, no `openSharePopup` invocation, no meta-description content, no
category-heading match — the extractor returns the structured record with
every extracted field absent (and, being a total function, never raises). -/
theorem parseJokePage_all_absent (doc : JokeDoc) (i : Nat)
    (h1 : matchTitleTag (trim doc.titleText) = none)
    (h2 : matchShare doc.bodyHtml = none)
    (h3 : doc.metaDescription = none)
    (h4 : matchCat (trim doc.h2First) = none) :
    parseJokePage doc i = ⟨i, none, none, none, jokeUrl i⟩ := by
  simp only [parseJokePage, h1, h2, h3, h4]
  simp [trim]

/-- Witness for C7 at the empty document. -/
theorem parseJokePage_all_absent_witness :
    matchTitleTag (trim (JokeDoc.titleText ⟨[], [], none, [], []⟩)) = none ∧
    parseJokePage ⟨[], [], none, [], []⟩ 3 = ⟨3, none, none, none, jokeUrl 3⟩ :=
  ⟨by decide,
   parseJokePage_all_absent ⟨[], [], none, [], []⟩ 3
     (by decide) (by decide) (by decide) (by decide)⟩

-- ══════════════════════════════════════════════════════════════
--  C8, C9
-- ══════════════════════════════════════════════════════════════

/-- C8 counterexample: with species names carrying a Hebrew entry "X" and
the dynamic dictionary defining "pikachu" as "Y", the normalizer returns
"X" — the API-provided name, which the claim's chain does not mention —
while the claimed chain (dynamic dictionary first) returns "Y". -/
theorem getHebrewName_api_first_counterexample :
    getHebrewName dictY namesX "pikachu".data = some "X".data ∧
    lookupTab dictY "pikachu".data = some "Y".data ∧
    normalizerChainSpec dictY TYPE_HE "pikachu".data = some "Y".data ∧
    getHebrewName dictY namesX "pikachu".data
      ≠ normalizerChainSpec dictY TYPE_HE "pikachu".data := by
  refine ⟨by decide, by decide, by decide, by decide⟩

/-- C8 (amended): the normalizer consults, in order, (a) the per-request
API-provided localized names, then (b) the dynamically-loaded dictionary
(for Pokemon names) or the static built-in table (for type names), then
(c) null — never a thrown error; a non-empty API-provided name wins, and
only when the API provides none is the dictionary's (or static table's)
value returned. -/
theorem getHebrewName_lookup_order (dict : List (List Char × List Char))
    (names : List NameEntry) (k : List Char) :
    (∀ v, getName names "he".data = some v →
        getHebrewName dict names k = some v) ∧
    (getName names "he".data = none →
        getHebrewName dict names k = lookupTruthy dict k) ∧
    (∀ t, getName names "he".data = none →
        typeNameHebrew names t = he TYPE_HE t) := by
  refine ⟨?_, ?_, ?_⟩
  · intro v hv
    simp only [getHebrewName, hv]
  · intro hn
    simp only [getHebrewName, hn]
  · intro t hn
    simp only [typeNameHebrew, hn]

/-- Witness for C8 (amended) at the concrete dictionary and names. -/
theorem getHebrewName_lookup_order_witness :
    (getName namesX "he".data = some "X".data ∧
      getHebrewName dictY namesX "pikachu".data = some "X".data) ∧
    (getName [] "he".data = none ∧
      getHebrewName dictY [] "pikachu".data = lookupTruthy dictY "pikachu".data) :=
  ⟨⟨by decide,
    (getHebrewName_lookup_order dictY namesX "pikachu".data).1 "X".data (by decide)⟩,
   ⟨by decide,
    (getHebrewName_lookup_order dictY [] "pikachu".data).2.1 (by decide)⟩⟩

/-- C9: the fan-out is best-effort: in the soccer aggregation a failed
league fetch contributes nothing while every other item's contribution is
unchanged, a successful one contributes exactly its matches; in the jokes
fan-out the batch always has one result per link, and a failed link
contributes its per-item null-joke record in place, aborting nothing. -/
theorem fanout_best_effort :
    (∀ (α : Type) (l₁ l₂ : List (Except (List Char) (List α))) (e : List Char),
        fetchTodayMatches (l₁ ++ Except.error e :: l₂)
          = fetchTodayMatches l₁ ++ fetchTodayMatches l₂) ∧
    (∀ (α : Type) (l₁ l₂ : List (Except (List Char) (List α))) (ms : List α),
        fetchTodayMatches (l₁ ++ Except.ok ms :: l₂)
          = fetchTodayMatches l₁ ++ ms ++ fetchTodayMatches l₂) ∧
    (∀ (links : List ListingEntry)
        (fetch : ListingEntry → Except (List Char) JokeRecord),
        (jokesLatestBatch links fetch).length = links.length) ∧
    (∀ (l₁ l₂ : List ListingEntry) (link : ListingEntry)
        (fetch : ListingEntry → Except (List Char) JokeRecord) (e : List Char),
        fetch link = Except.error e →
        jokesLatestBatch (l₁ ++ link :: l₂) fetch
          = jokesLatestBatch l₁ fetch
            ++ nullJokeOf link :: jokesLatestBatch l₂ fetch) := by
  refine ⟨?_, ?_, ?_, ?_⟩
  · intro α l₁ l₂ e
    simp [fetchTodayMatches, allSettledLeagues, fetchLeagueResult,
      List.map_append, List.filterMap_append]
  · intro α l₁ l₂ ms
    simp [fetchTodayMatches, allSettledLeagues, fetchLeagueResult,
      List.map_append, List.filterMap_append]
  · intro links fetch
    simp [jokesLatestBatch]
  · intro l₁ l₂ link fetch e hf
    simp [jokesLatestBatch, List.map_append, hf]

/-- Witness for C9 at a one-link batch whose fetch fails. -/
theorem fanout_best_effort_witness :
    (fun _ : ListingEntry => (Except.error "boom".data : Except (List Char) JokeRecord))
        ⟨1, "t".data, "u".data⟩ = Except.error "boom".data ∧
    jokesLatestBatch [⟨1, "t".data, "u".data⟩]
        (fun _ => Except.error "boom".data)
      = [nullJokeOf ⟨1, "t".data, "u".data⟩] := by
  refine ⟨rfl, ?_⟩
  have h := fanout_best_effort.2.2.2 [] [] ⟨1, "t".data, "u".data⟩
    (fun _ => Except.error "boom".data) "boom".data rfl
  simpa using h
